import Mathlib

/-
Verification of the B_decays_clustering repository core against its
specification.  The Python sources are shallowly embedded below:

* `NFloat` models IEEE-754 double values with exact rational arithmetic on
  finite values plus the special values `inf`, `ninf` and `nan`; the only
  place the special values can arise in the embedded code is the division
  in the chi2 metric (`numpy` float division never raises on a zero
  denominator, it produces `inf`/`nan`).
* `chi2num`/`chi2den`/`chi2summand`/`chi2ndf` embed
  `bclustering/maths/metric.py::chi2_metric` (the einsum pipeline), and
  `condense`/`uncondense` embed `scipy.spatial.distance.squareform` in both
  directions (row-major upper triangle).
* `poolBuffer`/`scanner_run_rows` embed `bclustering/scan.py::Scanner.run`:
  workers may complete in an arbitrary schedule `sched`, results are stored
  by task index (`multiprocessing.Pool.imap` buffers out-of-order
  completions) and the consuming loop reads them in submission order.
* `set_wpoints_grid` embeds `Scanner.set_wpoints_grid`; `strLe` embeds
  Python's code-point-lexicographic string comparison used by `list.sort`,
  and `wilson.Wilson(...).wc.values` is modelled by keeping each wilson
  point as an association list in sorted coefficient order (which is how
  the wilson library stores it, as the source comment at scan.py:214
  relies on).
* `rpLoop`/`run_parallel` embed the historical `scan.py::run_parallel`
  with its per-point appends to the output file; `scanner_run_except`
  embeds the fail-fast row assembly of `Scanner.run` when the evaluation
  function can fail.
* `pdUnique`/`rename_clusters_auto` embed
  `clusterking/data/data.py::Data._rename_clusters_auto` (pandas `unique`
  keeps the order of first appearance).
* `cluster_write` embeds `bclustering/cluster/cluster.py::Cluster.write`
  (the dataframe part; the metadata write on line 70 has no bearing on the
  claims about the cluster column).
* `fix_param_inplace`/`fix_param` embed
  `clusterking/data/data.py::Data.fix_param` with numpy's `argmin` and
  `isclose` (rtol=1e-5, atol=1e-8) spelled out exactly.
* `scanner_write` embeds `bclustering/scan.py::Scanner.write` over a flat
  filesystem `FS`; serialisation of the dataframe and the metadata is kept
  abstract (a serialiser is passed in), which is all the overwrite-policy
  claims need.
-/

-- ===========================================================================
-- Part A: definitions
-- ===========================================================================

-- ---------------------------------------------------------------------------
-- IEEE-like value type for the metric computation
-- ---------------------------------------------------------------------------

/-- A floating-point value: a finite rational, `+inf`, `-inf` or `nan`.
Rationals model finite doubles exactly; only the chi2 division can leave
the finite fragment. -/
inductive NFloat where
  | fin (q : ℚ)
  | inf
  | ninf
  | nan
deriving DecidableEq, Repr

/-- IEEE addition (exact on finite values). -/
def NFloat.add : NFloat → NFloat → NFloat
  | .nan, _ => .nan
  | _, .nan => .nan
  | .inf, .ninf => .nan
  | .ninf, .inf => .nan
  | .inf, _ => .inf
  | _, .inf => .inf
  | .ninf, _ => .ninf
  | _, .ninf => .ninf
  | .fin a, .fin b => .fin (a + b)

/-- IEEE division (exact on finite values; `x/0` follows numpy: `inf`,
`-inf` or `nan` by the sign of `x`; rationals have no signed zero, the
sign of a zero divisor is taken positive as in the embedded code where
denominators are sums of squares). -/
def NFloat.div : NFloat → NFloat → NFloat
  | .nan, _ => .nan
  | _, .nan => .nan
  | .fin a, .fin b =>
    if b = 0 then (if a = 0 then .nan else if 0 < a then .inf else .ninf)
    else .fin (a / b)
  | .fin _, .inf => .fin 0
  | .fin _, .ninf => .fin 0
  | .inf, .fin b => if b < 0 then .ninf else .inf
  | .ninf, .fin b => if b < 0 then .inf else .ninf
  | .inf, .inf => .nan
  | .inf, .ninf => .nan
  | .ninf, .inf => .nan
  | .ninf, .ninf => .nan

/-- Is the value finite? -/
def NFloat.isFin : NFloat → Bool
  | .fin _ => true
  | _ => false

/-- Sum of a list of floats (`np.einsum("kli->kl", ...)` over the bin
axis; exact here, so the accumulation order is irrelevant). -/
def nsum (l : List NFloat) : NFloat := l.foldr NFloat.add (NFloat.fin 0)

-- ---------------------------------------------------------------------------
-- chi2 metric (bclustering/maths/metric.py)
-- ---------------------------------------------------------------------------

/-- Numerator of one chi2 summand: `(n_i*d_j[b] - n_j*d_i[b])**2`
(metric.py lines 44-46). -/
def chi2num (nrm : ℕ → ℚ) (d : ℕ → ℕ → ℚ) (i j b : ℕ) : ℚ :=
  (nrm i * d j b - nrm j * d i b) ^ 2

/-- Denominator of one chi2 summand: `(n_i*e_j[b])**2 + (n_j*e_i[b])**2`
(metric.py lines 49-51). -/
def chi2den (nrm : ℕ → ℚ) (e : ℕ → ℕ → ℚ) (i j b : ℕ) : ℚ :=
  (nrm i * e j b) ^ 2 + (nrm j * e i b) ^ 2

/-- One summand `nominator / denominator` (metric.py line 54); the only
division of the pipeline, hence the only source of `inf`/`nan`. -/
def chi2summand (nrm : ℕ → ℚ) (d e : ℕ → ℕ → ℚ) (i j b : ℕ) : NFloat :=
  NFloat.div (.fin (chi2num nrm d i j b)) (.fin (chi2den nrm e i j b))

/-- Entry `(i, j)` of the full chi2/ndf matrix: sum over bins divided by
`nbins` (metric.py line 57). -/
def chi2ndf (nrm : ℕ → ℚ) (d e : ℕ → ℕ → ℚ) (nbins : ℕ) (i j : ℕ) : NFloat :=
  NFloat.div (nsum ((List.range nbins).map (chi2summand nrm d e i j)))
    (.fin (nbins : ℚ))

/-- `squareform` full → condensed: the strict upper triangle, row major
(first the entries `(0, 1), ..., (0, n-1)`, then the triangle of the
lower-right `(n-1) × (n-1)` block). -/
def condense : (n : ℕ) → (ℕ → ℕ → NFloat) → List NFloat
  | 0, _ => []
  | n + 1, M =>
    ((List.range n).map (fun j => M 0 (j + 1))) ++
      condense n (fun i j => M (i + 1) (j + 1))

/-- `squareform` condensed → full: symmetric with a zero diagonal. -/
def uncondense : (n : ℕ) → List NFloat → (ℕ → ℕ → NFloat)
  | 0, _ => fun _ _ => .fin 0
  | n + 1, v => fun i j =>
    if i = 0 then
      (if j = 0 then .fin 0 else (v.getD (j - 1) (.fin 0)))
    else if j = 0 then v.getD (i - 1) (.fin 0)
    else uncondense n (v.drop n) (i - 1) (j - 1)

/-- Result of `chi2_metric`: either a condensed vector or a full matrix. -/
inductive MetricOutput where
  | condensed (v : List NFloat)
  | full (m : ℕ → ℕ → NFloat)

/-- `chi2_metric(dwe, output)` (metric.py lines 21-64): dispatch on the
`output` argument; an unknown argument raises `ValueError`.  The dataset
is given by its row count `n`, bin count `nbins`, normalisations `nrm`,
decorrelated bin contents `d` and bin errors `e`. -/
def chi2_metric (n nbins : ℕ) (nrm : ℕ → ℚ) (d e : ℕ → ℕ → ℚ)
    (output : String) : Except String MetricOutput :=
  if output = "condensed" then
    .ok (.condensed (condense n (chi2ndf nrm d e nbins)))
  else if output = "full" then .ok (.full (chi2ndf nrm d e nbins))
  else .error "ValueError: Unknown argument"

-- ---------------------------------------------------------------------------
-- Python string order and lower-casing (decidable, kernel-reducible)
-- ---------------------------------------------------------------------------

/-- Code-point lexicographic comparison of character lists, as Python
compares strings. -/
def lexLeB : List Char → List Char → Bool
  | [], _ => true
  | _ :: _, [] => false
  | a :: as, b :: bs =>
    if a.val < b.val then true
    else if b.val < a.val then false
    else lexLeB as bs

/-- Python's `<=` on strings. -/
def strLe (a b : String) : Prop := lexLeB a.data b.data = true

instance : DecidableRel strLe := fun a b => by
  unfold strLe
  infer_instance

/-- ASCII lower-casing of one character (`str.lower` on the policy
strings, which are ASCII). -/
def charLower (c : Char) : Char :=
  if 'A' ≤ c ∧ c ≤ 'Z' then Char.ofNat (c.toNat + 32) else c

/-- `str.lower`. -/
def strLower (s : String) : String := ⟨s.data.map charLower⟩

-- ---------------------------------------------------------------------------
-- Worker pool and Scanner.run (bclustering/scan.py lines 320-362)
-- ---------------------------------------------------------------------------

/-- Pointwise update of a buffer indexed by task number. -/
def updFn {β : Type} (f : ℕ → Option β) (k : ℕ) (v : Option β) :
    ℕ → Option β :=
  fun x => if x = k then v else f x

/-- State of the pool's result buffer after the workers completed in the
order given by `sched`: completion `k` stores `f tasks[k]` under index
`k`.  `imap` hands results to the consumer strictly by index, so the
consumer only ever reads this buffer at `0, 1, 2, ...`. -/
def poolBuffer {α β : Type} (f : α → β) (tasks : List α) (sched : List ℕ) :
    ℕ → Option β :=
  sched.foldl (fun acc k => updFn acc k (tasks[k]?.map f)) (fun _ => none)

/-- A point in wilson space, kept in the wilson library's canonical
alphabetical coefficient order (`Wilson(...).wc.values`). -/
abbrev WPoint := List (String × ℚ)

/-- `list(wpoint.wc.values.values())` — the coefficient values in the
stored (alphabetical) order. -/
def wpointValues (w : WPoint) : List ℚ := w.map Prod.snd

/-- The rows assembled by `Scanner.run` (scan.py lines 336-349): row `i`
is built from wilson point `i` and the pool result of task `i`, for any
completion schedule `sched` and any worker count. -/
def scanner_run_rows (wpoints : List WPoint) (f : WPoint → List ℚ)
    (sched : List ℕ) (_noWorkers : ℕ) : List (List ℚ) :=
  (List.range wpoints.length).map
    (fun i =>
      wpointValues (wpoints.getD i []) ++ ((poolBuffer f wpoints sched) i).getD [])

-- ---------------------------------------------------------------------------
-- Scanner.set_wpoints_grid (bclustering/scan.py lines 195-246)
-- ---------------------------------------------------------------------------

/-- `itertools.product` over the value lists (rightmost factor varies
fastest). -/
def cartProd : List (List ℚ) → List (List ℚ)
  | [] => [[]]
  | xs :: rest => xs.flatMap (fun x => (cartProd rest).map (fun t => x :: t))

/-- The scanner state that matters to the claims: the wilson points and
the coefficient list stored in the metadata (`md["coeffs"]`). -/
structure ScannerState where
  wpoints : List WPoint
  mdCoeffs : List String

/-- `Scanner.set_wpoints_grid(values, ...)`: the coefficient names are
sorted, the cartesian product of the value lists is built in sorted-name
order and each wilson point stores its coefficients sorted; but the
metadata records `list(values.keys())` in the order the caller supplied
(scan.py line 242). -/
def set_wpoints_grid (values : List (String × List ℚ)) : ScannerState :=
  let coeffs := List.insertionSort strLe (values.map Prod.fst)
  let valuesLists := coeffs.map (fun c => (values.lookup c).getD [])
  let cartesians := cartProd valuesLists
  ⟨cartesians.map (fun t => coeffs.zip t), values.map Prod.fst⟩

/-- Columns of the dataframe assembled by `Scanner.run` (scan.py lines
356-360): the metadata coefficient list followed by the bin columns. -/
def scan_columns (st : ScannerState) (nbins : ℕ) : List String :=
  st.mdCoeffs ++ (List.range nbins).map (fun b => "bin" ++ toString b)

-- ---------------------------------------------------------------------------
-- Flat filesystem model
-- ---------------------------------------------------------------------------

/-- A flat filesystem: path → file content, `none` when absent. -/
def FS : Type := String → Option String

/-- Write (or delete, with `none`) one path. -/
def fsUpdate (fs : FS) (p : String) (v : Option String) : FS :=
  fun x => if x = p then v else fs x

/-- `open(path, "a")` followed by a write: append to the (possibly
absent) file. -/
def appendFile (fs : FS) (p : String) (s : String) : FS :=
  fsUpdate fs p (some (((fs p).getD "") ++ s))

/-- Concatenation of the per-point output blocks. -/
def strConcat (l : List String) : String := l.foldr (· ++ ·) ""

-- ---------------------------------------------------------------------------
-- run_parallel (scan.py lines 94-156) and fail-fast Scanner.run
-- ---------------------------------------------------------------------------

/-- The consuming loop of `run_parallel` (scan.py lines 136-152): results
arrive in submission order; each successful result is immediately
appended to the output file; the first failure propagates out of the
loop (a worker exception is re-raised by `imap` when its item is
consumed), leaving the file as written so far. -/
def rpLoop {α β ε : Type} (f : α → Except ε β) (ser : α → β → String)
    (path : String) : List α → FS → FS × Option ε
  | [], fs => (fs, none)
  | p :: rest, fs =>
    match f p with
    | .ok r => rpLoop f ser path rest (appendFile fs path (ser p r))
    | .error err => (fs, some err)

/-- `run_parallel(bpoints, ...)` (scan.py lines 94-156): an existing
output file is removed first (lines 128-129), then results are appended
one by one in submission order. -/
def run_parallel {α β ε : Type} (f : α → Except ε β) (ser : α → β → String)
    (path : String) (bpoints : List α) (fs : FS) : FS × Option ε :=
  rpLoop f ser path bpoints
    (if (fs path).isSome then fsUpdate fs path none else fs)

/-- `Scanner.run` when the evaluation function can fail: rows are
assembled in submission order and the first failure aborts the whole
assembly (the exception surfaces out of the consuming loop before
`self.df` is assigned, scan.py lines 336-361), so no partial table and
no file is produced. -/
def scanner_run_except {ε : Type} (f : WPoint → Except ε (List ℚ)) :
    List WPoint → Except ε (List (List ℚ))
  | [] => .ok []
  | w :: ws =>
    match f w with
    | .error err => .error err
    | .ok r =>
      match scanner_run_except f ws with
      | .error err => .error err
      | .ok rest => .ok ((wpointValues w ++ r) :: rest)

-- ---------------------------------------------------------------------------
-- Cluster renaming (clusterking/data/data.py lines 278-320)
-- ---------------------------------------------------------------------------

/-- Helper of `pdUnique`: scan the list, keeping the values not seen
before. -/
def pdUniqueAux {α : Type} [DecidableEq α] : List α → List α → List α
  | _, [] => []
  | seen, x :: xs =>
    if x ∈ seen then pdUniqueAux seen xs
    else x :: pdUniqueAux (x :: seen) xs

/-- `pandas.Series.unique`: the distinct values in order of first
appearance. -/
def pdUnique {α : Type} [DecidableEq α] (l : List α) : List α :=
  pdUniqueAux [] l

/-- `Data._rename_clusters_auto` (data.py lines 302-320): build
`old2new = dict(zip(unique, range(len(unique))))` and map it over the
cluster column (via `_rename_clusters_dict` and
`_rename_clusters_func`). -/
def rename_clusters_auto {α : Type} [DecidableEq α] (col : List α) : List ℕ :=
  col.map (fun c => (pdUnique col).indexOf c)

-- ---------------------------------------------------------------------------
-- Cluster.write (bclustering/cluster/cluster.py lines 67-73)
-- ---------------------------------------------------------------------------

/-- Column assignment `df[name] = v` on a dataframe kept as an
association list of columns (any previous column of that name is
replaced; column position is irrelevant to the claims). -/
def setCol (df : List (String × List (Option ℤ))) (name : String)
    (v : List (Option ℤ)) : List (String × List (Option ℤ)) :=
  df.filter (fun c => decide (c.1 ≠ name)) ++ [(name, v)]

/-- `Cluster.write(name)` (cluster.py lines 67-73), written for a data
object with `nrows` rows.  There is no precondition check: with
`self.clusters` still `None` the assignment `df[name] = None` broadcasts
`None` to every row, `rename_clusters` then renames that single `None`
"cluster" to `0`, and with `self.bpoints` `None` no benchmark column is
added.  (The metadata write on line 70 is independent of the dataframe
and omitted.) -/
def cluster_write (nrows : ℕ) (clusters : Option (List ℤ))
    (bpoints : Option (List Bool)) (name : String)
    (df : List (String × List (Option ℤ))) : List (String × List (Option ℤ)) :=
  let col0 : List (Option ℤ) :=
    match clusters with
    | none => List.replicate nrows none
    | some cs => cs.map some
  let df1 := setCol df name col0
  let renamed : List (Option ℤ) :=
    (rename_clusters_auto col0).map (fun k => some (Int.ofNat k))
  let df2 := setCol df1 name renamed
  match bpoints with
  | none => df2
  | some bp => setCol df2 (name ++ "_bp") (bp.map (fun b => some (if b then 1 else 0)))

-- ---------------------------------------------------------------------------
-- Data.fix_param (clusterking/data/data.py lines 135-190)
-- ---------------------------------------------------------------------------

/-- One dataframe row: parameter/flag columns as an association list. -/
abbrev Row := List (String × ℚ)

/-- `df[param]` for one row (the claims only use columns that exist). -/
def rowVal (r : Row) (p : String) : ℚ := (r.lookup p).getD 0

/-- `df[bpoint_column].astype(bool)` for one row. -/
def rowFlag (r : Row) (p : String) : Bool := decide (rowVal r p ≠ 0)

/-- `np.argmin`: index of the first minimum. -/
def argminIdx (l : List ℚ) : ℕ :=
  (List.range l.length).foldl
    (fun best i => if l.getD i 0 < l.getD best 0 then i else best) 0

/-- `available_values[np.abs(available_values - value).argmin()]`
(data.py lines 180-182). -/
def nearest_value (col : List ℚ) (target : ℚ) : ℚ :=
  col.getD (argminIdx (col.map (fun v => |v - target|))) 0

/-- `np.isclose(a, b)` with numpy defaults `rtol=1e-5`, `atol=1e-8`:
`|a - b| <= atol + rtol * |b|`. -/
def iscloseB (a b : ℚ) : Bool :=
  decide (|a - b| ≤ 1 / 100000000 + (1 / 100000) * |b|)

/-- The in-place body of `Data.fix_param` (data.py lines 171-190): a row
survives iff for every requested parameter its value is `isclose` to the
nearest available value of one of the requested targets, or (with
`bpoints=True`) the row's benchmark flag is set. -/
def fix_param_inplace (df : List Row) (bpoints : Bool) (bpointColumn : String)
    (kwargs : List (String × List ℚ)) : List Row :=
  df.filter (fun r =>
    (kwargs.all (fun pv =>
      pv.2.any (fun v =>
        iscloseB (rowVal r pv.1)
          (nearest_value (df.map (fun s => rowVal s pv.1)) v)))) ||
    (bpoints && rowFlag r bpointColumn))

/-- `Data.fix_param` (data.py lines 135-190).  Returns the pair
(returned object, state of `self` after the call).  With
`inplace=False` the source deep-copies `self` and recurses with
`inplace=True`, forwarding `bpoints` and the parameter kwargs but *not*
`bpoint_column` (data.py line 168), so the copy uses the default column
`"bpoint"`. -/
def fix_param (df : List Row) (inplace : Bool) (bpoints : Bool)
    (bpointColumn : String) (kwargs : List (String × List ℚ)) :
    Option (List Row) × List Row :=
  if inplace then (none, fix_param_inplace df bpoints bpointColumn kwargs)
  else (some (fix_param_inplace df bpoints "bpoint" kwargs), df)

-- ---------------------------------------------------------------------------
-- Scanner.write (bclustering/scan.py lines 370-459)
-- ---------------------------------------------------------------------------

/-- `Scanner.data_output_path`: `directory / (name + "_data.csv")`. -/
def data_output_path (dir name : String) : String :=
  dir ++ "/" ++ name ++ "_data.csv"

/-- `Scanner.metadata_output_path`: `directory / (name + "_metadata.json")`. -/
def metadata_output_path (dir name : String) : String :=
  dir ++ "/" ++ name ++ "_metadata.json"

/-- `Scanner.write(directory, name, overwrite)` (scan.py lines 387-459).
`df` is the result table, `serDf` its csv serialisation, `serMd` the
serialised metadata (serialisation itself is opaque to the overwrite
policy).  `userAgrees` is the answer the `yn_prompt` would receive.  The
second component is the exception raised, if any. -/
def scanner_write (fs : FS) (df : List (List ℚ))
    (serDf : List (List ℚ) → String) (serMd : String)
    (dir name policy : String) (userAgrees : Bool) : FS × Option String :=
  if df = [] then (fs, none)
  else
    let mdPath := metadata_output_path dir name
    let dPath := data_output_path dir name
    let pol := strLower policy
    let afterWrite : FS :=
      fsUpdate (fsUpdate fs mdPath (some serMd)) dPath (some (serDf df))
    if ((fs mdPath).isSome || (fs dPath).isSome) then
      if pol = "ask" then
        (if userAgrees then (afterWrite, none) else (fs, none))
      else if pol = "overwrite" then (afterWrite, none)
      else if pol = "raise" then (fs, some "FileExistsError")
      else (fs, some "ValueError")
    else (afterWrite, none)

-- ---------------------------------------------------------------------------
-- Concrete fixtures for witnesses and counterexamples
-- ---------------------------------------------------------------------------

/-- Normalisations of the 2-row metric witness dataset. -/
def nrmW : ℕ → ℚ := fun _ => 1

/-- Bin contents of the metric witness dataset. -/
def dW : ℕ → ℕ → ℚ := fun i _ => (i : ℚ)

/-- Bin errors of the metric witness dataset (all 1, regular). -/
def eW : ℕ → ℕ → ℚ := fun _ _ => 1

/-- Bin errors of the degenerate metric dataset (all 0). -/
def eZ : ℕ → ℕ → ℚ := fun _ _ => 0

/-- Two wilson points over the single coefficient `a`. -/
def wpsW : List WPoint := [[("a", 1)], [("a", 2)]]

/-- A distribution function echoing the first coefficient twice. -/
def fEcho : WPoint → List ℚ := fun w => [(wpointValues w).getD 0 0]

/-- Grid input with the keys supplied in non-lexicographic order. -/
def valsCX : List (String × List ℚ) := [("b", [1]), ("a", [2])]

/-- Grid input with the keys supplied in lexicographic order. -/
def valsW : List (String × List ℚ) := [("a", [3, 4]), ("b", [5])]

/-- A constant distribution function. -/
def fConst : WPoint → List ℚ := fun _ => [0]

/-- An evaluation function failing on task 1 only. -/
def fFail5 : ℕ → Except String ℕ :=
  fun k => if k = 0 then .ok 7 else .error "boom"

/-- Serialiser used in the run_parallel fixtures. -/
def serF5 : ℕ → ℕ → String := fun _ _ => "r"

/-- The empty filesystem. -/
def fsEmpty : FS := fun _ => none

/-- An evaluation function failing on every wilson point. -/
def gFailW : WPoint → Except String (List ℚ) := fun _ => .error "bad"

/-- Cluster column fixture with three distinct values. -/
def colW : List ℕ := [5, 3, 5, 9]

/-- fix_param fixture: two rows whose `a` values differ by `1e-9`. -/
def dfCX9 : List Row := [[("a", 0)], [("a", 1 / 1000000000)]]

/-- fix_param fixture with a benchmark row that no selection matches. -/
def dfW9 : List Row := [[("a", 0), ("bpoint", 0)], [("a", 7), ("bpoint", 1)]]

/-- A filesystem holding both target files of the dataset `("d", "n")`. -/
def fsBoth : FS := fun p =>
  if p = data_output_path "d" "n" ∨ p = metadata_output_path "d" "n" then
    some "old"
  else none

/-- One-row table used in the write fixtures. -/
def dfOne : List (List ℚ) := [[1]]

/-- csv serialiser stub for the write fixtures. -/
def serCsv : List (List ℚ) → String := fun _ => "csv"

-- ===========================================================================
-- Part B: lemmas and theorems
-- ===========================================================================

-- ---------------------------------------------------------------------------
-- NFloat lemmas
-- ---------------------------------------------------------------------------

theorem NFloat.add_isFin {x y : NFloat} (h : (NFloat.add x y).isFin = true) :
    x.isFin = true ∧ y.isFin = true := by
  cases x <;> cases y <;> simp_all [NFloat.add, NFloat.isFin]

theorem nsum_isFin {l : List NFloat} (h : (nsum l).isFin = true) :
    ∀ x ∈ l, x.isFin = true := by
  induction l with
  | nil => simp
  | cons a t ih =>
    have h' : (NFloat.add a (nsum t)).isFin = true := h
    obtain ⟨ha, ht⟩ := NFloat.add_isFin h'
    intro x hx
    rcases List.mem_cons.mp hx with rfl | hx
    · exact ha
    · exact ih ht x hx

theorem NFloat.div_notFin {x : NFloat} (b : ℚ) (h : x.isFin = false) :
    (NFloat.div x (.fin b)).isFin = false := by
  cases x with
  | fin q => simp [NFloat.isFin] at h
  | inf => simp only [NFloat.div]; split <;> rfl
  | ninf => simp only [NFloat.div]; split <;> rfl
  | nan => rfl

theorem nsum_all_zero {l : List NFloat} (h : ∀ x ∈ l, x = NFloat.fin 0) :
    nsum l = NFloat.fin 0 := by
  induction l with
  | nil => rfl
  | cons a t ih =>
    have ha : a = NFloat.fin 0 := h a (List.mem_cons_self a t)
    have ht : nsum t = NFloat.fin 0 := ih (fun x hx => h x (List.mem_cons_of_mem a hx))
    show NFloat.add a (nsum t) = NFloat.fin 0
    rw [ha, ht]
    simp [NFloat.add]

-- ---------------------------------------------------------------------------
-- chi2 lemmas
-- ---------------------------------------------------------------------------

theorem chi2num_symm (nrm : ℕ → ℚ) (d : ℕ → ℕ → ℚ) (i j b : ℕ) :
    chi2num nrm d i j b = chi2num nrm d j i b := by
  unfold chi2num
  ring

theorem chi2den_symm (nrm : ℕ → ℚ) (e : ℕ → ℕ → ℚ) (i j b : ℕ) :
    chi2den nrm e i j b = chi2den nrm e j i b := by
  unfold chi2den
  ring

theorem chi2summand_symm (nrm : ℕ → ℚ) (d e : ℕ → ℕ → ℚ) (i j b : ℕ) :
    chi2summand nrm d e i j b = chi2summand nrm d e j i b := by
  unfold chi2summand
  rw [chi2num_symm, chi2den_symm]

theorem chi2ndf_symm (nrm : ℕ → ℚ) (d e : ℕ → ℕ → ℚ) (nbins i j : ℕ) :
    chi2ndf nrm d e nbins i j = chi2ndf nrm d e nbins j i := by
  unfold chi2ndf
  congr 1
  exact congrArg nsum (List.map_congr_left (fun b _ => chi2summand_symm nrm d e i j b))

theorem chi2summand_diag (nrm : ℕ → ℚ) (d e : ℕ → ℕ → ℚ) (i b : ℕ)
    (h : chi2den nrm e i i b ≠ 0) : chi2summand nrm d e i i b = NFloat.fin 0 := by
  unfold chi2summand
  have hnum : chi2num nrm d i i b = 0 := by
    unfold chi2num
    ring
  rw [hnum]
  simp [NFloat.div, h]

theorem chi2ndf_diag (nrm : ℕ → ℚ) (d e : ℕ → ℕ → ℚ) (nbins i : ℕ)
    (hb : 0 < nbins) (hden : ∀ b, b < nbins → chi2den nrm e i i b ≠ 0) :
    chi2ndf nrm d e nbins i i = NFloat.fin 0 := by
  unfold chi2ndf
  rw [nsum_all_zero]
  · have hnb : ((nbins : ℚ)) ≠ 0 := by
      exact_mod_cast Nat.pos_iff_ne_zero.mp hb
    simp [NFloat.div, hnb]
  · intro x hx
    obtain ⟨b, hbmem, rfl⟩ := List.mem_map.mp hx
    exact chi2summand_diag nrm d e i b (hden b (List.mem_range.mp hbmem))

-- ---------------------------------------------------------------------------
-- condense/uncondense lemmas
-- ---------------------------------------------------------------------------

theorem condense_block_getD (n : ℕ) (M : ℕ → ℕ → NFloat) (jj : ℕ)
    (h : jj < n) (dflt : NFloat) :
    (condense (n + 1) M).getD jj dflt = M 0 (jj + 1) := by
  show (((List.range n).map (fun j => M 0 (j + 1))) ++
    condense n (fun i j => M (i + 1) (j + 1))).getD jj dflt = M 0 (jj + 1)
  rw [List.getD_eq_getElem?_getD, List.getElem?_append_left (by simpa using h)]
  simp [List.getElem?_map, List.getElem?_range h]

theorem condense_drop (n : ℕ) (M : ℕ → ℕ → NFloat) :
    (condense (n + 1) M).drop n = condense n (fun i j => M (i + 1) (j + 1)) := by
  have key : ∀ (bl rest : List NFloat), bl.length = n →
      (bl ++ rest).drop n = rest := by
    intro bl rest h
    rw [← h]
    simp
  show (((List.range n).map (fun j => M 0 (j + 1))) ++
    condense n (fun i j => M (i + 1) (j + 1))).drop n = _
  exact key _ _ (by simp)

theorem uncondense_condense (n : ℕ) (M : ℕ → ℕ → NFloat)
    (hsym : ∀ i j, i < n → j < n → M i j = M j i)
    (hdiag : ∀ i, i < n → M i i = NFloat.fin 0) :
    ∀ i j, i < n → j < n → uncondense n (condense n M) i j = M i j := by
  induction n generalizing M with
  | zero =>
    intro i j hi _
    exact absurd hi (Nat.not_lt_zero i)
  | succ n ih =>
    intro i j hi hj
    cases i with
    | zero =>
      cases j with
      | zero =>
        show NFloat.fin 0 = M 0 0
        exact (hdiag 0 (Nat.succ_pos n)).symm
      | succ jj =>
        show (condense (n + 1) M).getD jj (.fin 0) = M 0 (jj + 1)
        exact condense_block_getD n M jj (by omega) _
    | succ ii =>
      cases j with
      | zero =>
        show (condense (n + 1) M).getD ii (.fin 0) = M (ii + 1) 0
        rw [condense_block_getD n M ii (by omega)]
        exact hsym 0 (ii + 1) (Nat.succ_pos n) hi
      | succ jj =>
        show uncondense n ((condense (n + 1) M).drop n) ii jj = M (ii + 1) (jj + 1)
        rw [condense_drop]
        exact ih (fun a b => M (a + 1) (b + 1))
          (fun a b ha hb => hsym (a + 1) (b + 1) (by omega) (by omega))
          (fun a ha => hdiag (a + 1) (by omega)) ii jj (by omega) (by omega)

-- ---------------------------------------------------------------------------
-- C3
-- ---------------------------------------------------------------------------

/-- C3: for every dataset (normalisations, bin contents, bin errors)
whose chi2 denominators are all nonzero, the full chi2/ndf matrix is
symmetric and zero on the diagonal, and condensing then uncondensing the
full matrix reproduces it exactly. -/
theorem C3_metric_symmetric_zero_diagonal_roundtrip
    (n nbins : ℕ) (nrm : ℕ → ℚ) (d e : ℕ → ℕ → ℚ)
    (hb : 0 < nbins)
    (hden : ∀ i j b, i < n → j < n → b < nbins → chi2den nrm e i j b ≠ 0) :
    (∀ i j, i < n → j < n →
      chi2ndf nrm d e nbins i j = chi2ndf nrm d e nbins j i) ∧
    (∀ i, i < n → chi2ndf nrm d e nbins i i = NFloat.fin 0) ∧
    (∀ i j, i < n → j < n →
      uncondense n (condense n (chi2ndf nrm d e nbins)) i j =
        chi2ndf nrm d e nbins i j) := by
  refine ⟨fun i j _ _ => chi2ndf_symm nrm d e nbins i j, ?_, ?_⟩
  · intro i hi
    exact chi2ndf_diag nrm d e nbins i hb (fun b hbb => hden i i b hi hi hbb)
  · exact uncondense_condense n (chi2ndf nrm d e nbins)
      (fun i j _ _ => chi2ndf_symm nrm d e nbins i j)
      (fun i hi => chi2ndf_diag nrm d e nbins i hb
        (fun b hbb => hden i i b hi hi hbb))

/-- Witness for C3 at a concrete regular 2-row, 1-bin dataset. -/
theorem C3_metric_witness :
    chi2ndf nrmW dW eW 1 0 1 = chi2ndf nrmW dW eW 1 1 0 ∧
    chi2ndf nrmW dW eW 1 0 0 = NFloat.fin 0 ∧
    uncondense 2 (condense 2 (chi2ndf nrmW dW eW 1)) 0 1 =
      chi2ndf nrmW dW eW 1 0 1 := by
  obtain ⟨h1, h2, h3⟩ :=
    C3_metric_symmetric_zero_diagonal_roundtrip 2 1 nrmW dW eW (by norm_num)
      (by
        intro i j b _ _ _
        simp only [chi2den, nrmW, eW]
        norm_num)
  exact ⟨h1 0 1 (by norm_num) (by norm_num), h2 0 (by norm_num),
    h3 0 1 (by norm_num) (by norm_num)⟩

-- ---------------------------------------------------------------------------
-- C4
-- ---------------------------------------------------------------------------

/-- C4 counterexample: on a dataset in which both error terms of the
denominator vanish for the pair (0, 1) and bin 0, `chi2_metric` does not
fail — it returns a matrix, and the (0, 1) entry is `inf` (the zero
denominator was silently coerced by the float division). -/
theorem C4_counterexample :
    (chi2_metric 2 1 nrmW dW eZ "full").isOk = true ∧
    chi2ndf nrmW dW eZ 1 0 1 = NFloat.inf := by
  constructor
  · rfl
  · show NFloat.div
      (nsum ((List.range 1).map (chi2summand nrmW dW eZ 0 1))) (.fin (1 : ℚ)) =
        NFloat.inf
    have hs : chi2summand nrmW dW eZ 0 1 0 = NFloat.inf := by
      unfold chi2summand
      have hnum : chi2num nrmW dW 0 1 0 = 1 := by
        simp [chi2num, nrmW, dW]
      have hden : chi2den nrmW eZ 0 1 0 = 0 := by
        simp [chi2den, nrmW, eZ]
      rw [hnum, hden]
      norm_num [NFloat.div]
    have hrange : (List.range 1).map (chi2summand nrmW dW eZ 0 1) =
        [chi2summand nrmW dW eZ 0 1 0] := by
      rfl
    rw [hrange]
    show NFloat.div (NFloat.add (chi2summand nrmW dW eZ 0 1 0) (.fin 0)) _ = _
    rw [hs]
    rfl

/-- C4 (amended): when some pair of rows and some bin have a vanishing
chi2 denominator, the metric computation does not raise — `chi2_metric`
still returns a result, and the corresponding full-matrix entry is
non-finite (`inf` or `nan`), i.e. the zero denominator is silently
propagated through the float division instead of being reported. -/
theorem C4_zero_denominator_not_an_error
    (n nbins : ℕ) (nrm : ℕ → ℚ) (d e : ℕ → ℕ → ℚ) (i j b : ℕ)
    (hi : i < n) (hj : j < n) (hb : b < nbins)
    (hden : chi2den nrm e i j b = 0) :
    (chi2_metric n nbins nrm d e "full").isOk = true ∧
    (chi2ndf nrm d e nbins i j).isFin = false := by
  refine ⟨rfl, ?_⟩
  have hsummand : (chi2summand nrm d e i j b).isFin = false := by
    unfold chi2summand
    rw [hden]
    have hdiv : NFloat.div (.fin (chi2num nrm d i j b)) (.fin 0) =
        if chi2num nrm d i j b = 0 then .nan
        else if 0 < chi2num nrm d i j b then .inf else .ninf := by
      simp [NFloat.div]
    rw [hdiv]
    split
    · rfl
    · split <;> rfl
  have hmem : chi2summand nrm d e i j b ∈
      (List.range nbins).map (chi2summand nrm d e i j) :=
    List.mem_map_of_mem _ (List.mem_range.mpr hb)
  have hns : (nsum ((List.range nbins).map (chi2summand nrm d e i j))).isFin
      = false := by
    by_contra hc
    have ht : (nsum ((List.range nbins).map (chi2summand nrm d e i j))).isFin
        = true := by
      revert hc
      cases (nsum ((List.range nbins).map (chi2summand nrm d e i j))).isFin <;>
        simp
    have := nsum_isFin ht _ hmem
    rw [hsummand] at this
    exact Bool.false_ne_true this
  exact NFloat.div_notFin _ hns

/-- Witness for the amended C4 at the concrete degenerate dataset. -/
theorem C4_zero_denominator_witness :
    (chi2_metric 2 1 nrmW dW eZ "full").isOk = true ∧
    (chi2ndf nrmW dW eZ 1 0 1).isFin = false :=
  C4_zero_denominator_not_an_error 2 1 nrmW dW eZ 0 1 0 (by norm_num)
    (by norm_num) (by norm_num) (by simp [chi2den, nrmW, eZ])

-- ---------------------------------------------------------------------------
-- Worker-pool lemmas
-- ---------------------------------------------------------------------------

theorem updFn_self {β : Type} (f : ℕ → Option β) (k : ℕ) (v : Option β) :
    updFn f k v k = v := by
  simp [updFn]

theorem updFn_other {β : Type} (f : ℕ → Option β) (k x : ℕ) (v : Option β)
    (h : x ≠ k) : updFn f k v x = f x := by
  simp [updFn, h]

theorem poolBuffer_eq {α β : Type} (f : α → β) (tasks : List α)
    (sched : List ℕ) (k : ℕ) (hk : k ∈ sched) :
    poolBuffer f tasks sched k = tasks[k]?.map f := by
  suffices h : ∀ (s : List ℕ) (acc : ℕ → Option β),
      (k ∈ s ∨ acc k = tasks[k]?.map f) →
      (s.foldl (fun a kk => updFn a kk (tasks[kk]?.map f)) acc) k =
        tasks[k]?.map f by
    exact h sched _ (Or.inl hk)
  intro s
  induction s with
  | nil =>
    intro acc h
    rcases h with h | h
    · exact absurd h (List.not_mem_nil k)
    · exact h
  | cons a t ih =>
    intro acc h
    show (t.foldl _ (updFn acc a (tasks[a]?.map f))) k = _
    apply ih
    rcases h with h | h
    · rcases List.mem_cons.mp h with rfl | h
      · right
        exact updFn_self acc k _
      · left
        exact h
    · by_cases hka : k = a
      · subst hka
        right
        exact updFn_self acc k _
      · right
        rw [updFn_other acc a k _ hka]
        exact h

theorem range_map_getD {β : Type} (n i : ℕ) (g : ℕ → β) (d : β) (h : i < n) :
    ((List.range n).map g).getD i d = g i := by
  rw [List.getD_eq_getElem?_getD, List.getElem?_map, List.getElem?_range h]
  rfl

theorem map_getD {α β : Type} (l : List α) (g : α → β) (i : ℕ)
    (h : i < l.length) (da : α) (db : β) :
    (l.map g).getD i db = g (l.getD i da) := by
  rw [List.getD_eq_getElem?_getD, List.getElem?_map, List.getElem?_eq_getElem h]
  rw [List.getD_eq_getElem?_getD, List.getElem?_eq_getElem h]
  rfl

theorem getElem?_eq_some_getD {α : Type} (l : List α) (i : ℕ)
    (h : i < l.length) (d : α) : l[i]? = some (l.getD i d) := by
  rw [List.getElem?_eq_getElem h, List.getD_eq_getElem?_getD,
    List.getElem?_eq_getElem h]
  rfl

-- ---------------------------------------------------------------------------
-- C1
-- ---------------------------------------------------------------------------

/-- C1: for every wilson-point sequence, distribution function, worker
count and completion schedule covering all tasks, `Scanner.run` produces
one row per point, and row `i` is the parameter values of point `i`
followed by the distribution computed for point `i` — the assembly order
equals the submission order regardless of the completion order. -/
theorem C1_run_order_preservation
    (wpoints : List WPoint) (f : WPoint → List ℚ) (sched : List ℕ) (nw : ℕ)
    (hs : ∀ k, k < wpoints.length → k ∈ sched) :
    (scanner_run_rows wpoints f sched nw).length = wpoints.length ∧
    ∀ i, i < wpoints.length →
      (scanner_run_rows wpoints f sched nw).getD i [] =
        wpointValues (wpoints.getD i []) ++ f (wpoints.getD i []) := by
  constructor
  · simp [scanner_run_rows]
  · intro i hi
    unfold scanner_run_rows
    rw [range_map_getD _ _ _ _ hi]
    rw [poolBuffer_eq f wpoints sched i (hs i hi)]
    rw [getElem?_eq_some_getD wpoints i hi []]
    rfl

/-- Witness for C1: two wilson points, the workers complete in reversed
order `[1, 0]`, and row 1 still belongs to point 1. -/
theorem C1_run_order_witness :
    (scanner_run_rows wpsW fEcho [1, 0] 2).length = 2 ∧
    (scanner_run_rows wpsW fEcho [1, 0] 2).getD 1 [] = [2, 2] := by
  obtain ⟨hlen, hrow⟩ := C1_run_order_preservation wpsW fEcho [1, 0] 2 (by decide)
  exact ⟨hlen, hrow 1 (by decide)⟩

-- ---------------------------------------------------------------------------
-- cartesian-product and lookup lemmas
-- ---------------------------------------------------------------------------

theorem flatMap_map_cons_length (xs : List ℚ) (L : List (List ℚ)) :
    (xs.flatMap fun x => L.map (fun t => x :: t)).length = xs.length * L.length := by
  induction xs with
  | nil => simp
  | cons x xt ih =>
    simp only [List.flatMap_cons, List.length_append, List.length_map,
      List.length_cons, ih]
    ring

theorem cartProd_length (ls : List (List ℚ)) :
    (cartProd ls).length = (ls.map List.length).prod := by
  induction ls with
  | nil => rfl
  | cons xs rest ih =>
    show (xs.flatMap fun x => (cartProd rest).map (fun t => x :: t)).length = _
    rw [flatMap_map_cons_length, ih]
    simp

theorem cartProd_mem_length (ls : List (List ℚ)) (t : List ℚ)
    (h : t ∈ cartProd ls) : t.length = ls.length := by
  induction ls generalizing t with
  | nil =>
    have : t = [] := by simpa [cartProd] using h
    simp [this]
  | cons xs rest ih =>
    have h' : t ∈ xs.flatMap fun x => (cartProd rest).map (fun s => x :: s) := h
    obtain ⟨x, _, hx⟩ := List.mem_flatMap.mp h'
    obtain ⟨s, hs, rfl⟩ := List.mem_map.mp hx
    simp [ih s hs]

theorem lookup_over_keys (values : List (String × List ℚ))
    (hnd : (values.map Prod.fst).Nodup) :
    (values.map Prod.fst).map (fun c => (values.lookup c).getD []) =
      values.map Prod.snd := by
  induction values with
  | nil => rfl
  | cons kv rest ih =>
    obtain ⟨k, v⟩ := kv
    have hnd2 : (k :: rest.map Prod.fst).Nodup := by simpa using hnd
    obtain ⟨hk, hnd'⟩ := List.nodup_cons.mp hnd2
    simp only [List.map_cons]
    congr 1
    · simp [List.lookup]
    · rw [← ih hnd']
      apply List.map_congr_left
      intro c hc
      have hck : (c == k) = false := by
        apply beq_eq_false_iff_ne.mpr
        intro he
        exact hk (he ▸ hc)
      simp [List.lookup, hck]

theorem zip_lookup_getD (coeffs : List String) (t : List ℚ) (hnd : coeffs.Nodup)
    (hlen : t.length = coeffs.length) (j : ℕ) (hj : j < coeffs.length) :
    (coeffs.zip t).lookup (coeffs.getD j "") = some (t.getD j 0) := by
  induction coeffs generalizing t j with
  | nil => exact absurd hj (Nat.not_lt_zero j)
  | cons c cs ih =>
    cases t with
    | nil => simp at hlen
    | cons x xt =>
      cases j with
      | zero => simp [List.lookup]
      | succ jj =>
        obtain ⟨hc, hnd'⟩ := List.nodup_cons.mp hnd
        have hjj : jj < cs.length := by simpa using hj
        show ((c, x) :: cs.zip xt).lookup (cs.getD jj "") = some (xt.getD jj 0)
        have hmem : cs.getD jj "" ∈ cs := by
          rw [List.getD_eq_getElem?_getD, List.getElem?_eq_getElem hjj]
          exact List.getElem_mem hjj
        have hne : (cs.getD jj "" == c) = false := by
          apply beq_eq_false_iff_ne.mpr
          intro he
          exact hc (he ▸ hmem)
        simp only [List.lookup, hne]
        exact ih xt hnd' (by simpa using hlen) jj hjj

theorem zip_snd_getD (coeffs : List String) (t : List ℚ)
    (hlen : t.length = coeffs.length) (j : ℕ) (hj : j < coeffs.length) :
    (List.map Prod.snd (coeffs.zip t)).getD j 0 = t.getD j 0 := by
  induction coeffs generalizing t j with
  | nil => exact absurd hj (Nat.not_lt_zero j)
  | cons c cs ih =>
    cases t with
    | nil => simp at hlen
    | cons x xt =>
      cases j with
      | zero => rfl
      | succ jj =>
        show (List.map Prod.snd (cs.zip xt)).getD jj 0 = xt.getD jj 0
        exact ih xt (by simpa using hlen) jj (by simpa using hj)

-- ---------------------------------------------------------------------------
-- C2
-- ---------------------------------------------------------------------------

theorem append_getD_left {α : Type} (l₁ l₂ : List α) (j : ℕ)
    (h : j < l₁.length) (d : α) : (l₁ ++ l₂).getD j d = l₁.getD j d := by
  rw [List.getD_eq_getElem?_getD, List.getElem?_append_left h,
    List.getD_eq_getElem?_getD]

theorem getD_mem_of_lt {α : Type} (l : List α) (i : ℕ) (h : i < l.length)
    (d : α) : l.getD i d ∈ l := by
  rw [List.getD_eq_getElem?_getD, List.getElem?_eq_getElem h]
  exact List.getElem_mem h

theorem set_wpoints_grid_wpoints (values : List (String × List ℚ)) :
    (set_wpoints_grid values).wpoints =
      (cartProd ((List.insertionSort strLe (values.map Prod.fst)).map
        (fun c => (values.lookup c).getD []))).map
        (fun t => (List.insertionSort strLe (values.map Prod.fst)).zip t) := rfl

theorem set_wpoints_grid_mdCoeffs (values : List (String × List ℚ)) :
    (set_wpoints_grid values).mdCoeffs = values.map Prod.fst := rfl

theorem scan_columns_def (st : ScannerState) (nbins : ℕ) :
    scan_columns st nbins =
      st.mdCoeffs ++ (List.range nbins).map (fun b => "bin" ++ toString b) := rfl

/-- C2 (amended): for distinct parameter names the generated parameter
space always has exactly the product of the per-parameter value counts;
and when the parameter specification lists its names in lexicographic
order, the parameter columns of the assembled table carry the (sorted)
parameter names and each table cell holds the value of the parameter its
column is named after.  (When the names are supplied out of order the
header keeps the caller's order while the row data is sorted, so the
columns are mislabeled — see the counterexample.) -/
theorem C2_grid_count_and_columns
    (values : List (String × List ℚ)) (hnd : (values.map Prod.fst).Nodup) :
    (set_wpoints_grid values).wpoints.length =
      (values.map (fun pv => pv.2.length)).prod ∧
    (List.Sorted strLe (values.map Prod.fst) →
      (∀ nbins j, j < values.length →
        (scan_columns (set_wpoints_grid values) nbins).getD j "" =
          (values.map Prod.fst).getD j "") ∧
      (∀ (f : WPoint → List ℚ) (sched : List ℕ) (nw i j : ℕ),
        i < (set_wpoints_grid values).wpoints.length → j < values.length →
        ((scanner_run_rows (set_wpoints_grid values).wpoints f sched nw).getD
            i []).getD j 0 =
          (((set_wpoints_grid values).wpoints.getD i []).lookup
            ((values.map Prod.fst).getD j "")).getD 0)) := by
  have hkeys : (values.map Prod.fst).length = values.length := List.length_map _ _
  constructor
  · rw [set_wpoints_grid_wpoints, List.length_map, cartProd_length, List.map_map]
    have hperm : List.Perm (List.insertionSort strLe (values.map Prod.fst))
        (values.map Prod.fst) := List.perm_insertionSort strLe _
    rw [(hperm.map (List.length ∘ fun c => (values.lookup c).getD [])).prod_eq]
    have hl := congrArg (List.map List.length) (lookup_over_keys values hnd)
    rw [List.map_map, List.map_map] at hl
    rw [List.map_map, hl, List.map_map]
    rfl
  · intro hsort
    have hcoeffs : List.insertionSort strLe (values.map Prod.fst) =
        values.map Prod.fst := hsort.insertionSort_eq
    constructor
    · intro nbins j hj
      rw [scan_columns_def, set_wpoints_grid_mdCoeffs]
      exact append_getD_left _ _ j (by omega) ""
    · intro f sched nw i j hi hj
      have hilen : i < (cartProd ((List.insertionSort strLe
          (values.map Prod.fst)).map (fun c => (values.lookup c).getD []))).length := by
        rw [set_wpoints_grid_wpoints, List.length_map] at hi
        exact hi
      have hwp : (set_wpoints_grid values).wpoints.getD i [] =
          (List.insertionSort strLe (values.map Prod.fst)).zip
            ((cartProd ((List.insertionSort strLe (values.map Prod.fst)).map
              (fun c => (values.lookup c).getD []))).getD i []) := by
        rw [set_wpoints_grid_wpoints]
        exact map_getD _ _ i hilen [] []
      have htmem := getD_mem_of_lt _ i hilen ([] : List ℚ)
      have htlen : ((cartProd ((List.insertionSort strLe
          (values.map Prod.fst)).map (fun c => (values.lookup c).getD []))).getD
            i []).length =
          (List.insertionSort strLe (values.map Prod.fst)).length := by
        rw [cartProd_mem_length _ _ htmem, List.length_map]
      have hknd : (List.insertionSort strLe (values.map Prod.fst)).Nodup := by
        rw [hcoeffs]
        exact hnd
      have hjc : j < (List.insertionSort strLe (values.map Prod.fst)).length := by
        rw [hcoeffs]
        omega
      unfold scanner_run_rows
      rw [range_map_getD _ _ _ _ hi, hwp]
      have hvlen : (wpointValues ((List.insertionSort strLe
          (values.map Prod.fst)).zip
            ((cartProd ((List.insertionSort strLe (values.map Prod.fst)).map
              (fun c => (values.lookup c).getD []))).getD i []))).length =
          (List.insertionSort strLe (values.map Prod.fst)).length := by
        unfold wpointValues
        rw [List.length_map, List.length_zip, htlen]
        omega
      rw [append_getD_left _ _ j (by omega) 0]
      unfold wpointValues
      rw [zip_snd_getD _ _ htlen j hjc]
      have hlook := zip_lookup_getD (List.insertionSort strLe
          (values.map Prod.fst))
          ((cartProd ((List.insertionSort strLe (values.map Prod.fst)).map
            (fun c => (values.lookup c).getD []))).getD i [])
          hknd htlen j hjc
      rw [show (List.insertionSort strLe (values.map Prod.fst)).getD j "" =
        (values.map Prod.fst).getD j "" from by rw [hcoeffs]] at hlook
      rw [hlook]
      rfl

/-- C2 counterexample: with the parameters supplied in the order
`["b", "a"]` the assembled header keeps that (non-lexicographic) order,
while the row data is in sorted order — the column named `"a"` holds `1`
although parameter `a` has the value `2` at that point. -/
theorem C2_columns_counterexample :
    (scan_columns (set_wpoints_grid valsCX) 1).getD 0 "" = "b" ∧
    (scan_columns (set_wpoints_grid valsCX) 1).getD 1 "" = "a" ∧
    ¬ strLe "b" "a" ∧
    ((scanner_run_rows (set_wpoints_grid valsCX).wpoints fConst [0] 1).getD
      0 []).getD 1 0 = 1 ∧
    (((set_wpoints_grid valsCX).wpoints.getD 0 []).lookup "a").getD 0 = 2 ∧
    (1 : ℚ) ≠ 2 := by
  refine ⟨rfl, rfl, by decide, rfl, rfl, by decide⟩

/-- Witness for the amended C2 at a sorted two-parameter grid. -/
theorem C2_grid_witness :
    (set_wpoints_grid valsW).wpoints.length = 2 ∧
    (scan_columns (set_wpoints_grid valsW) 1).getD 0 "" = "a" ∧
    ((scanner_run_rows (set_wpoints_grid valsW).wpoints fConst [0, 1] 2).getD
        1 []).getD 0 0 =
      (((set_wpoints_grid valsW).wpoints.getD 1 []).lookup "a").getD 0 := by
  obtain ⟨hcount, hrest⟩ := C2_grid_count_and_columns valsW (by decide)
  obtain ⟨hcols, hcells⟩ := hrest (by decide)
  refine ⟨?_, ?_, ?_⟩
  · rw [hcount]
    rfl
  · rw [hcols 1 0 (by decide)]
    rfl
  · exact hcells fConst [0, 1] 2 1 0 (by decide) (by decide)

-- ---------------------------------------------------------------------------
-- C5
-- ---------------------------------------------------------------------------

theorem str_empty_append (s : String) : "" ++ s = s := by
  cases s
  rfl

theorem appendFile_at (fs : FS) (path s : String) :
    (appendFile fs path s) path = some (((fs path).getD "") ++ s) := by
  simp [appendFile, fsUpdate]

theorem rpLoop_all_ok {α β ε : Type} (f : α → Except ε β)
    (ser : α → β → String) (path : String) (pre : List (α × β)) (q : α)
    (rest : List α) (er : ε)
    (hpre : ∀ pb ∈ pre, f pb.1 = .ok pb.2) (hq : f q = .error er) :
    ∀ fs : FS, rpLoop f ser path (pre.map Prod.fst ++ q :: rest) fs =
      (pre.foldl (fun acc pb => appendFile acc path (ser pb.1 pb.2)) fs,
        some er) := by
  induction pre with
  | nil =>
    intro fs
    show rpLoop f ser path (q :: rest) fs = (fs, some er)
    simp only [rpLoop, hq]
  | cons pb pt ih =>
    intro fs
    have hok : f pb.1 = .ok pb.2 := hpre pb (List.mem_cons_self pb pt)
    rw [List.map_cons, List.cons_append]
    have hstep : rpLoop f ser path (pb.1 :: (pt.map Prod.fst ++ q :: rest)) fs =
        rpLoop f ser path (pt.map Prod.fst ++ q :: rest)
          (appendFile fs path (ser pb.1 pb.2)) := by
      simp only [rpLoop, hok]
    rw [hstep, ih (fun x hx => hpre x (List.mem_cons_of_mem _ hx))]
    rfl

theorem str_append_empty (s : String) : s ++ "" = s := by
  cases s with
  | mk d =>
    show String.mk (d ++ []) = String.mk d
    rw [List.append_nil]

theorem foldl_appendFile_content {γ : Type} (path : String) (serOf : γ → String)
    (blocks : List γ) :
    ∀ (fs : FS) (c : String), fs path = some c →
      (blocks.foldl (fun acc x => appendFile acc path (serOf x)) fs) path =
        some (c ++ strConcat (blocks.map serOf)) := by
  induction blocks with
  | nil =>
    intro fs c h
    show fs path = some (c ++ strConcat [])
    rw [show strConcat [] = "" from rfl, str_append_empty, h]
  | cons x st ih =>
    intro fs c h
    show (st.foldl _ (appendFile fs path (serOf x))) path = _
    have h2 : (appendFile fs path (serOf x)) path = some (c ++ serOf x) := by
      rw [appendFile_at, h]
      rfl
    rw [ih _ _ h2]
    congr 1
    rw [show strConcat ((x :: st).map serOf) =
      serOf x ++ strConcat (st.map serOf) from rfl, String.append_assoc]

theorem scanner_run_except_fails (g : WPoint → Except String (List ℚ))
    (wpre : List WPoint) (wq : WPoint) (wrest : List WPoint) (er : String)
    (hwpre : ∀ w ∈ wpre, ∃ r, g w = .ok r) (hq : g wq = .error er) :
    scanner_run_except g (wpre ++ wq :: wrest) = .error er := by
  induction wpre with
  | nil =>
    show scanner_run_except g (wq :: wrest) = .error er
    simp only [scanner_run_except, hq]
  | cons w wt ih =>
    obtain ⟨r, hr⟩ := hwpre w (List.mem_cons_self w wt)
    have ihe := ih (fun x hx => hwpre x (List.mem_cons_of_mem _ hx))
    show scanner_run_except g (w :: (wt ++ wq :: wrest)) = .error er
    simp only [scanner_run_except, hr, ihe]

/-- C5 (amended): an evaluation failure at any index aborts the scan and
the error is surfaced to the caller in both scan implementations; in
`Scanner.run` no rows are assembled (and no file is touched, since
writing is a separate step); in `run_parallel`, however, the results of
the indices before the failing one have already been appended to the
output file (after any pre-existing output file was deleted), so a
partial output file remains on disk whenever the failure is not at
index 0. -/
theorem C5_failfast_and_partial_output
    {α β : Type} (f : α → Except String β) (ser : α → β → String)
    (path : String) (pre : List (α × β)) (q : α) (rest : List α) (er : String)
    (fs : FS) (hpre : ∀ pb ∈ pre, f pb.1 = .ok pb.2) (hq : f q = .error er)
    (g : WPoint → Except String (List ℚ)) (wpre : List WPoint) (wq : WPoint)
    (wrest : List WPoint) (er2 : String)
    (hwpre : ∀ w ∈ wpre, ∃ r, g w = .ok r) (hq2 : g wq = .error er2) :
    (run_parallel f ser path (pre.map Prod.fst ++ q :: rest) fs).2 = some er ∧
    (pre ≠ [] →
      (run_parallel f ser path (pre.map Prod.fst ++ q :: rest) fs).1 path =
        some (strConcat (pre.map (fun pb => ser pb.1 pb.2)))) ∧
    (pre = [] →
      (run_parallel f ser path (pre.map Prod.fst ++ q :: rest) fs).1 path =
        none) ∧
    scanner_run_except g (wpre ++ wq :: wrest) = .error er2 := by
  have hstart : ((if (fs path).isSome then fsUpdate fs path none else fs)
      path) = none := by
    split
    · simp [fsUpdate]
    · next h =>
      cases hfp : fs path with
      | none => rfl
      | some v =>
        rw [hfp] at h
        simp at h
  have hrun := rpLoop_all_ok f ser path pre q rest er hpre hq
    (if (fs path).isSome then fsUpdate fs path none else fs)
  refine ⟨?_, ?_, ?_, scanner_run_except_fails g wpre wq wrest er2 hwpre hq2⟩
  · show (rpLoop f ser path (pre.map Prod.fst ++ q :: rest) _).2 = some er
    rw [hrun]
  · intro hne
    obtain ⟨pb0, pt, rfl⟩ : ∃ pb0 pt, pre = pb0 :: pt := by
      cases pre with
      | nil => exact absurd rfl hne
      | cons a t => exact ⟨a, t, rfl⟩
    show (rpLoop f ser path ((pb0 :: pt).map Prod.fst ++ q :: rest)
      (if (fs path).isSome then fsUpdate fs path none else fs)).1 path = _
    rw [hrun]
    show (pt.foldl (fun acc pb => appendFile acc path (ser pb.1 pb.2))
      (appendFile (if (fs path).isSome then fsUpdate fs path none else fs)
        path (ser pb0.1 pb0.2))) path = _
    have hc0 : (appendFile
        (if (fs path).isSome then fsUpdate fs path none else fs) path
        (ser pb0.1 pb0.2)) path = some (ser pb0.1 pb0.2) := by
      rw [appendFile_at, hstart]
      rw [show (none : Option String).getD "" = "" from rfl]
      rw [str_empty_append]
    exact foldl_appendFile_content path (fun pb => ser pb.1 pb.2) pt _ _ hc0
  · intro h0
    subst h0
    show (rpLoop f ser path (List.map Prod.fst [] ++ q :: rest)
      (if (fs path).isSome then fsUpdate fs path none else fs)).1 path = none
    rw [hrun]
    exact hstart

/-- C5 counterexample: two tasks, the evaluation fails at index 1; the
run surfaces the error, but the output file exists and holds the result
block of index 0 — the claim that no output file is written is false for
`run_parallel`. -/
theorem C5_partial_file_counterexample :
    (run_parallel fFail5 serF5 "out" [0, 1] fsEmpty).2 = some "boom" ∧
    (run_parallel fFail5 serF5 "out" [0, 1] fsEmpty).1 "out" = some "r" := by
  constructor
  · decide
  · decide

/-- Witness for the amended C5: failure at index 1 of two tasks leaves
the block of index 0 in the file; and a failing evaluation makes the
fail-fast `Scanner.run` assembly return the error with no rows. -/
theorem C5_failfast_witness :
    (run_parallel fFail5 serF5 "out" [(1 : ℕ)] fsEmpty).1 "out" = none ∧
    (run_parallel fFail5 serF5 "out" [0, 1] fsEmpty).1 "out" =
      some (strConcat [serF5 0 7]) ∧
    scanner_run_except gFailW [[]] = .error "bad" := by
  obtain ⟨_, _, hempty, _⟩ :=
    C5_failfast_and_partial_output fFail5 serF5 "out" [] 1 [] "boom" fsEmpty
      (by simp) rfl gFailW [] [] [] "bad" (by simp) rfl
  obtain ⟨_, hpart, _, hscan⟩ :=
    C5_failfast_and_partial_output fFail5 serF5 "out" [(0, 7)] 1 [] "boom"
      fsEmpty
      (by
        intro pb hpb
        rw [List.mem_singleton] at hpb
        subst hpb
        rfl)
      rfl gFailW [] [] [] "bad" (by simp) rfl
  exact ⟨hempty rfl, hpart (by decide), hscan⟩

-- ---------------------------------------------------------------------------
-- C6
-- ---------------------------------------------------------------------------

theorem mem_pdUniqueAux {α : Type} [DecidableEq α] (l : List α) :
    ∀ (seen : List α) (x : α), x ∈ pdUniqueAux seen l ↔ x ∈ l ∧ x ∉ seen := by
  induction l with
  | nil =>
    intro seen x
    simp [pdUniqueAux]
  | cons a t ih =>
    intro seen x
    show x ∈ (if a ∈ seen then pdUniqueAux seen t
      else a :: pdUniqueAux (a :: seen) t) ↔ _
    by_cases ha : a ∈ seen
    · rw [if_pos ha, ih seen x]
      constructor
      · rintro ⟨h1, h2⟩
        exact ⟨List.mem_cons_of_mem a h1, h2⟩
      · rintro ⟨h1, h2⟩
        rcases List.mem_cons.mp h1 with rfl | h1
        · exact absurd ha h2
        · exact ⟨h1, h2⟩
    · rw [if_neg ha]
      constructor
      · intro hx
        rcases List.mem_cons.mp hx with rfl | hx
        · exact ⟨List.mem_cons_self x t, ha⟩
        · obtain ⟨h1, h2⟩ := (ih (a :: seen) x).mp hx
          exact ⟨List.mem_cons_of_mem a h1,
            fun hs => h2 (List.mem_cons_of_mem a hs)⟩
      · rintro ⟨h1, h2⟩
        by_cases hxa : x = a
        · subst hxa
          exact List.mem_cons_self x _
        · rcases List.mem_cons.mp h1 with rfl | h1
          · exact absurd rfl hxa
          · refine List.mem_cons_of_mem _ ((ih (a :: seen) x).mpr ⟨h1, ?_⟩)
            intro hc
            rcases List.mem_cons.mp hc with rfl | hc
            · exact hxa rfl
            · exact h2 hc

theorem mem_pdUnique {α : Type} [DecidableEq α] (l : List α) (x : α) :
    x ∈ pdUnique l ↔ x ∈ l := by
  rw [pdUnique, mem_pdUniqueAux]
  simp

theorem nodup_pdUniqueAux {α : Type} [DecidableEq α] (l : List α) :
    ∀ seen : List α, (pdUniqueAux seen l).Nodup := by
  induction l with
  | nil =>
    intro seen
    simp [pdUniqueAux]
  | cons a t ih =>
    intro seen
    show (if a ∈ seen then pdUniqueAux seen t
      else a :: pdUniqueAux (a :: seen) t).Nodup
    by_cases ha : a ∈ seen
    · rw [if_pos ha]
      exact ih seen
    · rw [if_neg ha]
      refine List.nodup_cons.mpr ⟨?_, ih (a :: seen)⟩
      intro hmem
      rw [mem_pdUniqueAux] at hmem
      exact hmem.2 (List.mem_cons_self a seen)

theorem nodup_pdUnique {α : Type} [DecidableEq α] (l : List α) :
    (pdUnique l).Nodup := nodup_pdUniqueAux l []

theorem pdUniqueAux_map_inj {α β : Type} [DecidableEq α] [DecidableEq β]
    (f : α → β) (l : List α) :
    ∀ seen : List α,
      (∀ x ∈ l, ∀ y ∈ seen, f x = f y → x = y) →
      (∀ x ∈ l, ∀ y ∈ l, f x = f y → x = y) →
      pdUniqueAux (seen.map f) (l.map f) = (pdUniqueAux seen l).map f := by
  induction l with
  | nil =>
    intro seen _ _
    rfl
  | cons a t ih =>
    intro seen hls hll
    have hmem : f a ∈ seen.map f ↔ a ∈ seen := by
      constructor
      · intro h
        obtain ⟨y, hy, he⟩ := List.mem_map.mp h
        rw [hls a (List.mem_cons_self a t) y hy he.symm]
        exact hy
      · intro h
        exact List.mem_map_of_mem f h
    show (if f a ∈ seen.map f then pdUniqueAux (seen.map f) (t.map f)
      else f a :: pdUniqueAux (f a :: seen.map f) (t.map f)) = _
    by_cases ha : a ∈ seen
    · rw [if_pos (hmem.mpr ha)]
      rw [show pdUniqueAux seen (a :: t) = pdUniqueAux seen t from by
        simp [pdUniqueAux, ha]]
      exact ih seen (fun x hx y hy => hls x (List.mem_cons_of_mem a hx) y hy)
        (fun x hx y hy =>
          hll x (List.mem_cons_of_mem a hx) y (List.mem_cons_of_mem a hy))
    · rw [if_neg (fun hc => ha (hmem.mp hc))]
      rw [show pdUniqueAux seen (a :: t) = a :: pdUniqueAux (a :: seen) t from by
        simp [pdUniqueAux, ha]]
      rw [List.map_cons]
      congr 1
      have hls2 : ∀ x ∈ t, ∀ y ∈ a :: seen, f x = f y → x = y := by
        intro x hx y hy he
        rcases List.mem_cons.mp hy with rfl | hy
        · exact hll x (List.mem_cons_of_mem y hx) y (List.mem_cons_self y t) he
        · exact hls x (List.mem_cons_of_mem a hx) y hy he
      exact ih (a :: seen) hls2
        (fun x hx y hy =>
          hll x (List.mem_cons_of_mem a hx) y (List.mem_cons_of_mem a hy))

theorem pdUnique_map_inj {α β : Type} [DecidableEq α] [DecidableEq β]
    (f : α → β) (col : List α)
    (hinj : ∀ x ∈ col, ∀ y ∈ col, f x = f y → x = y) :
    pdUnique (col.map f) = (pdUnique col).map f :=
  pdUniqueAux_map_inj f col [] (by intro x _ y hy; simp at hy) hinj

theorem nodup_map_indexOf_eq_range {α : Type} [DecidableEq α] (u : List α)
    (h : u.Nodup) : u.map (fun c => u.indexOf c) = List.range u.length := by
  apply List.ext_getElem
  · simp
  · intro i h1 h2
    have hi : i < u.length := by simpa using h1
    rw [List.getElem_map, List.getElem_range]
    have hmem : u[i] ∈ u := List.getElem_mem hi
    have hlt : u.indexOf u[i] < u.length := List.indexOf_lt_length.mpr hmem
    have := List.getElem_indexOf (a := u[i]) (l := u) hlt
    exact (h.getElem_inj_iff).mp this

/-- C6: auto-renaming the cluster column yields ids `0, ..., k-1` in
order of first appearance (the renamed column's first-appearance values
are exactly `range k`), one renamed id per row, and the renaming
preserves the induced partition: two rows agree before the renaming iff
they agree after it. -/
theorem C6_rename_clusters_auto_partition {α : Type} [DecidableEq α]
    (col : List α) :
    pdUnique (rename_clusters_auto col) = List.range (pdUnique col).length ∧
    (rename_clusters_auto col).length = col.length ∧
    (∀ (d : α) (i j : ℕ), i < col.length → j < col.length →
      (col.getD i d = col.getD j d ↔
        (rename_clusters_auto col).getD i 0 =
          (rename_clusters_auto col).getD j 0)) := by
  have hinj : ∀ x ∈ col, ∀ y ∈ col,
      (pdUnique col).indexOf x = (pdUnique col).indexOf y → x = y := by
    intro x hx y hy he
    exact (List.indexOf_inj ((mem_pdUnique col x).mpr hx)
      ((mem_pdUnique col y).mpr hy)).mp he
  refine ⟨?_, List.length_map _ _, ?_⟩
  · rw [rename_clusters_auto, pdUnique_map_inj _ col hinj,
      nodup_map_indexOf_eq_range (pdUnique col) (nodup_pdUnique col)]
  · intro d i j hi hj
    have hgi : (rename_clusters_auto col).getD i 0 =
        (pdUnique col).indexOf (col.getD i d) :=
      map_getD col _ i hi d 0
    have hgj : (rename_clusters_auto col).getD j 0 =
        (pdUnique col).indexOf (col.getD j d) :=
      map_getD col _ j hj d 0
    rw [hgi, hgj]
    constructor
    · intro h
      rw [h]
    · intro h
      exact hinj _ (getD_mem_of_lt col i hi _) _ (getD_mem_of_lt col j hj _) h

/-- Witness for C6 at the cluster column `[5, 3, 5, 9]`. -/
theorem C6_rename_clusters_witness :
    pdUnique (rename_clusters_auto colW) = List.range (pdUnique colW).length ∧
    ((rename_clusters_auto colW).getD 0 0 = (rename_clusters_auto colW).getD 2 0) := by
  obtain ⟨h1, _, h3⟩ := C6_rename_clusters_auto_partition colW
  exact ⟨h1, (h3 0 0 2 (by decide) (by decide)).mp (by decide)⟩

-- ---------------------------------------------------------------------------
-- C7
-- ---------------------------------------------------------------------------

theorem pdUniqueAux_replicate_seen {α : Type} [DecidableEq α] (x : α)
    (seen : List α) (hx : x ∈ seen) :
    ∀ m : ℕ, pdUniqueAux seen (List.replicate m x) = [] := by
  intro m
  induction m with
  | zero => rfl
  | succ k ih =>
    show (if x ∈ seen then pdUniqueAux seen (List.replicate k x)
      else x :: pdUniqueAux (x :: seen) (List.replicate k x)) = []
    rw [if_pos hx]
    exact ih

theorem rename_clusters_auto_replicate_none (n : ℕ) :
    rename_clusters_auto (List.replicate n (none : Option ℤ)) =
      List.replicate n 0 := by
  cases n with
  | zero => rfl
  | succ m =>
    have hu : pdUnique (List.replicate (m + 1) (none : Option ℤ)) = [none] := by
      show (if (none : Option ℤ) ∈ ([] : List (Option ℤ)) then
        pdUniqueAux ([] : List (Option ℤ)) (List.replicate m none) else
        none :: pdUniqueAux [none] (List.replicate m none)) = [none]
      rw [if_neg (List.not_mem_nil none)]
      rw [pdUniqueAux_replicate_seen none [none] (List.mem_singleton.mpr rfl) m]
    rw [rename_clusters_auto, hu, List.map_replicate]
    rfl

theorem setCol_setCol (df : List (String × List (Option ℤ))) (name : String)
    (v w : List (Option ℤ)) :
    setCol (setCol df name v) name w = setCol df name w := by
  unfold setCol
  rw [List.filter_append, List.filter_filter]
  simp

/-- C7 (amended): calling `Cluster.write` before `cluster` raises
nothing and does modify the data container: the unset (`None`)
assignment is broadcast to every row and auto-renaming then maps the
single `None` "cluster" to id `0`, so the data ends up with a cluster
column holding `0` for every row. -/
theorem C7_write_before_cluster (n : ℕ) (name : String)
    (df : List (String × List (Option ℤ))) :
    cluster_write n none none name df =
      setCol df name (List.replicate n (some 0)) := by
  show setCol (setCol df name (List.replicate n none)) name
    ((rename_clusters_auto (List.replicate n (none : Option ℤ))).map
      (fun k => some (Int.ofNat k))) = _
  rw [rename_clusters_auto_replicate_none, List.map_replicate, setCol_setCol]
  rfl

/-- C7 counterexample: on a 2-row data object with no prior clustering,
`write` returns normally (the embedded code path has no raise statement
at all, in particular no NotImplementedError) and the data container is
modified: a cluster column `[0, 0]` appears. -/
theorem C7_write_counterexample :
    cluster_write 2 none none "cluster" [] =
      [("cluster", [some 0, some 0])] ∧
    cluster_write 2 none none "cluster" [] ≠ [] := by
  constructor
  · decide
  · decide

-- ---------------------------------------------------------------------------
-- C10
-- ---------------------------------------------------------------------------

/-- C10: `fix_param` with `inplace=False` does not forward a custom
`bpoint_column`: the result is identical for every supplied column name,
and benchmark retention on the returned copy reads the default column
`"bpoint"`. -/
theorem C10_fix_param_drops_bpoint_column
    (df : List Row) (bpoints : Bool) (cc : String)
    (kwargs : List (String × List ℚ)) :
    fix_param df false bpoints cc kwargs =
      fix_param df false bpoints "bpoint" kwargs ∧
    (fix_param df false bpoints cc kwargs).1 =
      some (fix_param_inplace df bpoints "bpoint" kwargs) := by
  constructor
  · rfl
  · rfl

-- ---------------------------------------------------------------------------
-- C9
-- ---------------------------------------------------------------------------

/-- C9 (amended): with a single target value per named parameter,
`fix_param` (non-inplace) leaves the original container unchanged and
returns the rows whose parameter values are within numpy's `isclose`
tolerance (`|v - nearest| <= 1e-8 + 1e-5 * |nearest|`) of the available
value nearest to each target — not only the rows exactly equal to the
nearest value — plus every benchmark-flagged row when `bpoints=True`
(read from the default column). -/
theorem C9_fix_param_membership
    (df : List Row) (kwargs : List (String × ℚ)) (bpoints : Bool)
    (cc : String) (r : Row) :
    (fix_param df false bpoints cc
      (kwargs.map (fun pv => (pv.1, [pv.2])))).2 = df ∧
    (fix_param df false bpoints cc (kwargs.map (fun pv => (pv.1, [pv.2])))).1 =
      some (fix_param_inplace df bpoints "bpoint"
        (kwargs.map (fun pv => (pv.1, [pv.2])))) ∧
    (r ∈ fix_param_inplace df bpoints "bpoint"
        (kwargs.map (fun pv => (pv.1, [pv.2]))) ↔
      r ∈ df ∧
        ((∀ pv ∈ kwargs, iscloseB (rowVal r pv.1)
          (nearest_value (df.map (fun s => rowVal s pv.1)) pv.2) = true) ∨
          (bpoints = true ∧ rowFlag r "bpoint" = true))) := by
  refine ⟨rfl, rfl, ?_⟩
  rw [fix_param_inplace, List.mem_filter]
  constructor
  · rintro ⟨hmem, hp⟩
    refine ⟨hmem, ?_⟩
    rcases (Bool.or_eq_true _ _).mp hp with hall | hbp
    · left
      intro pv hpv
      have hh := List.all_eq_true.mp hall (pv.1, [pv.2])
        (List.mem_map_of_mem _ hpv)
      simpa using hh
    · right
      simpa using hbp
  · rintro ⟨hmem, hsel⟩
    refine ⟨hmem, ?_⟩
    apply (Bool.or_eq_true _ _).mpr
    rcases hsel with hall | ⟨hb, hf⟩
    · left
      apply List.all_eq_true.mpr
      intro pv' hpv'
      obtain ⟨pv, hpv, rfl⟩ := List.mem_map.mp hpv'
      simpa using hall pv hpv
    · right
      rw [hb, hf]
      rfl

/-- Witness for the amended C9: the benchmark-flagged row survives the
selection although its parameter value does not match, and the original
container is untouched. -/
theorem C9_fix_param_witness :
    (fix_param dfW9 false true "custom" [("a", [0])]).2 = dfW9 ∧
    (dfW9.getD 1 []) ∈ fix_param_inplace dfW9 true "bpoint" [("a", [0])] := by
  obtain ⟨hpure, _, hmem⟩ :=
    C9_fix_param_membership dfW9 [("a", 0)] true "custom" (dfW9.getD 1 [])
  exact ⟨hpure, hmem.mpr ⟨by decide, Or.inr ⟨rfl, by decide⟩⟩⟩

/-- C9 counterexample: the row whose `a` value is `1e-9` is kept by the
selection with target `0` although its value differs from the nearest
available value `0` — `fix_param` keeps `isclose` rows, not only the
rows equal to the nearest value. -/
theorem C9_isclose_counterexample :
    fix_param_inplace dfCX9 false "bpoint" [("a", [0])] = dfCX9 ∧
    rowVal (dfCX9.getD 1 []) "a" ≠
      nearest_value (dfCX9.map (fun s => rowVal s "a")) 0 := by
  have hnear : nearest_value (dfCX9.map (fun s => rowVal s "a")) 0 = 0 := by
    show (dfCX9.map (fun s => rowVal s "a")).getD
      (argminIdx ((dfCX9.map (fun s => rowVal s "a")).map
        (fun v => |v - 0|))) 0 = 0
    norm_num [dfCX9, rowVal, argminIdx, List.range_succ]
    rw [if_neg (by
      rw [abs_of_nonneg (by norm_num : (0 : ℚ) ≤ 1 / 1000000000)]
      norm_num)]
    rfl
  constructor
  · apply List.filter_eq_self.mpr
    intro r hr
    have hsel : iscloseB (rowVal r "a")
        (nearest_value (dfCX9.map (fun s => rowVal s "a")) 0) = true := by
      rw [hnear]
      rcases List.mem_cons.mp hr with rfl | hr
      · norm_num [iscloseB, rowVal]
      · rcases List.mem_cons.mp hr with rfl | hr
        · norm_num [iscloseB, rowVal]
          rw [abs_of_nonneg (by norm_num : (0 : ℚ) ≤ 1 / 1000000000)]
          norm_num
        · exact absurd hr (List.not_mem_nil r)
    simp [hsel]
  · rw [hnear]
    norm_num [dfCX9, rowVal]

-- ---------------------------------------------------------------------------
-- C8
-- ---------------------------------------------------------------------------

theorem scanner_write_files_exist (fs : FS) (df : List (List ℚ))
    (serDf : List (List ℚ) → String) (serMd : String)
    (dir name policy : String) (ua : Bool) (hdf : df ≠ [])
    (hex : ((fs (metadata_output_path dir name)).isSome ||
      (fs (data_output_path dir name)).isSome) = true) :
    scanner_write fs df serDf serMd dir name policy ua =
      (if strLower policy = "ask" then
        (if ua then
          (fsUpdate (fsUpdate fs (metadata_output_path dir name) (some serMd))
            (data_output_path dir name) (some (serDf df)), none)
        else (fs, none))
      else if strLower policy = "overwrite" then
        (fsUpdate (fsUpdate fs (metadata_output_path dir name) (some serMd))
          (data_output_path dir name) (some (serDf df)), none)
      else if strLower policy = "raise" then (fs, some "FileExistsError")
      else (fs, some "ValueError")) := by
  unfold scanner_write
  rw [if_neg hdf]
  simp only [hex]
  rfl

/-- C8 (amended): when the two target files exist and the table is
nonempty, policy `raise` aborts with `FileExistsError` and leaves the
filesystem untouched; `overwrite` succeeds and replaces both files;
`ask` with a declining answer leaves the filesystem untouched and
returns without raising; and every policy value whose *lower-cased* form
is outside `{ask, overwrite, raise}` aborts with a `ValueError` — the
policy string is matched case-insensitively, so values like
`"OVERWRITE"` do not error although they are outside the literal set. -/
theorem C8_overwrite_policy (fs : FS) (df : List (List ℚ))
    (serDf : List (List ℚ) → String) (serMd : String) (dir name : String)
    (ua : Bool)
    (hmd : (fs (metadata_output_path dir name)).isSome = true)
    (hd : (fs (data_output_path dir name)).isSome = true)
    (hdf : df ≠ []) :
    scanner_write fs df serDf serMd dir name "raise" ua =
      (fs, some "FileExistsError") ∧
    scanner_write fs df serDf serMd dir name "overwrite" ua =
      (fsUpdate (fsUpdate fs (metadata_output_path dir name) (some serMd))
        (data_output_path dir name) (some (serDf df)), none) ∧
    scanner_write fs df serDf serMd dir name "ask" false = (fs, none) ∧
    (∀ p : String,
      strLower p ∉ (["ask", "overwrite", "raise"] : List String) →
      scanner_write fs df serDf serMd dir name p ua =
        (fs, some "ValueError")) := by
  have hex : ((fs (metadata_output_path dir name)).isSome ||
      (fs (data_output_path dir name)).isSome) = true := by
    rw [hmd]
    rfl
  refine ⟨?_, ?_, ?_, ?_⟩
  · rw [scanner_write_files_exist fs df serDf serMd dir name "raise" ua hdf hex]
    rw [if_neg (by decide : ¬ strLower "raise" = "ask")]
    rw [if_neg (by decide : ¬ strLower "raise" = "overwrite")]
    rw [if_pos (by decide : strLower "raise" = "raise")]
  · rw [scanner_write_files_exist fs df serDf serMd dir name "overwrite" ua
      hdf hex]
    rw [if_neg (by decide : ¬ strLower "overwrite" = "ask")]
    rw [if_pos (by decide : strLower "overwrite" = "overwrite")]
  · rw [scanner_write_files_exist fs df serDf serMd dir name "ask" false
      hdf hex]
    rw [if_pos (by decide : strLower "ask" = "ask")]
    rfl
  · intro p hp
    have h1 : ¬ strLower p = "ask" := fun h => hp (by rw [h]; decide)
    have h2 : ¬ strLower p = "overwrite" := fun h => hp (by rw [h]; decide)
    have h3 : ¬ strLower p = "raise" := fun h => hp (by rw [h]; decide)
    rw [scanner_write_files_exist fs df serDf serMd dir name p ua hdf hex]
    rw [if_neg h1, if_neg h2, if_neg h3]

/-- C8 counterexample: the policy value `"OVERWRITE"` is outside the
literal set `{ask, overwrite, raise}` but the write does not fail with a
configuration error — it succeeds and replaces the existing data file
(the code lower-cases the policy first). -/
theorem C8_uppercase_policy_counterexample :
    ("OVERWRITE" ∉ (["ask", "overwrite", "raise"] : List String)) ∧
    (scanner_write fsBoth dfOne serCsv "md" "d" "n" "OVERWRITE" true).2 =
      none ∧
    (scanner_write fsBoth dfOne serCsv "md" "d" "n" "OVERWRITE" true).1
      (data_output_path "d" "n") = some "csv" ∧
    fsBoth (data_output_path "d" "n") = some "old" := by
  refine ⟨by decide, by decide, by decide, by decide⟩

/-- Witness for the amended C8 at a concrete filesystem holding both
target files. -/
theorem C8_overwrite_policy_witness :
    scanner_write fsBoth dfOne serCsv "md" "d" "n" "raise" true =
      (fsBoth, some "FileExistsError") ∧
    scanner_write fsBoth dfOne serCsv "md" "d" "n" "ask" false =
      (fsBoth, none) ∧
    scanner_write fsBoth dfOne serCsv "md" "d" "n" "boom" true =
      (fsBoth, some "ValueError") := by
  obtain ⟨h1, _, h3, h4⟩ := C8_overwrite_policy fsBoth dfOne serCsv "md" "d"
    "n" true (by decide) (by decide) (by decide)
  exact ⟨h1, h3, h4 "boom" (by decide)⟩
